import Mathlib

/-!
Verification of the mail orchestration engine of the `apple-mcp` repository.

The TypeScript source (`src/utils/mail.ts`, JXA variant, and `src/index.ts`) is
shallowly embedded: each orchestration function becomes a total Lean function,
the external scripting bridge becomes an explicit oracle parameter
(`Except String _` values model promises that may reject), and JavaScript
idioms are modelled explicitly:
  * `Array.prototype.filter` with a closed-over `Set` of seen keys becomes
    `dedupeBy` (first occurrence wins);
  * the stable JS `Array.prototype.sort` with the comparator
    `(a, b) => dateB - dateA` becomes the stable insertion sort `sortDescBy`;
  * `fuse.js` search (an external library) is modelled by a score oracle:
    items with no score (no match above the threshold) are dropped, the rest
    are stably sorted by ascending score (best match first), which is the
    documented behaviour of `Fuse.search`;
  * `String.prototype.toLowerCase` becomes the character-wise `lowerStr`
    (`String.toLower` itself is not kernel-reducible, so an equivalent
    reducible definition is used);
  * JS truthiness of optional strings / numbers is modelled by `jsStringArg`
    (empty string is falsy) and by the explicit `l ≠ 0` test on limits;
  * `Promise.all` over independent bridge calls becomes `promiseAll`
    (first rejection rejects the whole batch).
-/

namespace AppleMcp

/-- Character-wise lowercasing; models JavaScript `String.prototype.toLowerCase`
on the ASCII names handled by the mail code. -/
def lowerStr (s : String) : String := String.mk (s.data.map Char.toLower)

/-- First-occurrence-preserving deduplication keyed by `key`, threading the
list of already-seen keys; models the JS idiom
`arr.filter(x => seen.has(key(x)) ? false : (seen.add(key(x)), true))`. -/
def dedupeByAux {α β : Type} [DecidableEq β] (key : α → β) : List α → List β → List α
  | [], _ => []
  | x :: xs, seen =>
    if key x ∈ seen then dedupeByAux key xs seen
    else x :: dedupeByAux key xs (key x :: seen)

/-- Deduplicate a list by a key, keeping the first occurrence of each key. -/
def dedupeBy {α β : Type} [DecidableEq β] (key : α → β) (l : List α) : List α :=
  dedupeByAux key l []

theorem dedupeByAux_sublist {α β : Type} [DecidableEq β] (key : α → β) :
    ∀ (l : List α) (seen : List β), List.Sublist (dedupeByAux key l seen) l := by
  intro l
  induction l with
  | nil => intro seen; exact List.Sublist.refl []
  | cons x xs ih =>
    intro seen
    simp only [dedupeByAux]
    split
    · exact (ih seen).cons x
    · exact (ih (key x :: seen)).cons₂ x

theorem dedupeBy_sublist {α β : Type} [DecidableEq β] (key : α → β) (l : List α) :
    List.Sublist (dedupeBy key l) l :=
  dedupeByAux_sublist key l []

theorem mem_of_mem_dedupeBy {α β : Type} [DecidableEq β] (key : α → β) (l : List α)
    (x : α) (hx : x ∈ dedupeBy key l) : x ∈ l :=
  (dedupeBy_sublist key l).mem hx

theorem key_not_seen_of_mem_dedupeByAux {α β : Type} [DecidableEq β] (key : α → β) :
    ∀ (l : List α) (seen : List β) (x : α),
      x ∈ dedupeByAux key l seen → key x ∉ seen := by
  intro l
  induction l with
  | nil => intro seen x hx; simp [dedupeByAux] at hx
  | cons a as ih =>
    intro seen x hx
    simp only [dedupeByAux] at hx
    split at hx
    · exact ih seen x hx
    · rcases List.mem_cons.mp hx with h | h
      · subst h; assumption
      · have := ih (key a :: seen) x h
        intro hmem
        exact this (List.mem_cons_of_mem _ hmem)

theorem nodup_keys_dedupeByAux {α β : Type} [DecidableEq β] (key : α → β) :
    ∀ (l : List α) (seen : List β), ((dedupeByAux key l seen).map key).Nodup := by
  intro l
  induction l with
  | nil => intro seen; simp [dedupeByAux]
  | cons a as ih =>
    intro seen
    simp only [dedupeByAux]
    split
    · exact ih seen
    · simp only [List.map_cons, List.nodup_cons]
      constructor
      · intro hmem
        rcases List.mem_map.mp hmem with ⟨y, hy, hkey⟩
        have := key_not_seen_of_mem_dedupeByAux key as (key a :: seen) y hy
        exact this (by simp [hkey])
      · exact ih (key a :: seen)

theorem nodup_keys_dedupeBy {α β : Type} [DecidableEq β] (key : α → β) (l : List α) :
    ((dedupeBy key l).map key).Nodup :=
  nodup_keys_dedupeByAux key l []

theorem find?_of_mem_dedupeByAux {α β : Type} [DecidableEq β] (key : α → β) :
    ∀ (l : List α) (seen : List β) (x : α), x ∈ dedupeByAux key l seen →
      l.find? (fun y => decide (key y = key x)) = some x := by
  intro l
  induction l with
  | nil => intro seen x hx; simp [dedupeByAux] at hx
  | cons a as ih =>
    intro seen x hx
    simp only [dedupeByAux] at hx
    split at hx
    · have hne : key x ≠ key a := by
        intro h
        exact key_not_seen_of_mem_dedupeByAux key as seen x hx (h ▸ (by assumption))
      rw [List.find?_cons_of_neg _
        (by simp only [decide_eq_true_eq]; exact fun h => hne h.symm)]
      exact ih seen x hx
    · rcases List.mem_cons.mp hx with h | h
      · subst h
        exact List.find?_cons_of_pos _ (by simp)
      · have hnotin := key_not_seen_of_mem_dedupeByAux key as (key a :: seen) x h
        have hne : key x ≠ key a := fun hk => hnotin (by simp [hk])
        rw [List.find?_cons_of_neg _
          (by simp only [decide_eq_true_eq]; exact fun h => hne h.symm)]
        exact ih (key a :: seen) x h

theorem find?_of_mem_dedupeBy {α β : Type} [DecidableEq β] (key : α → β) (l : List α)
    (x : α) (hx : x ∈ dedupeBy key l) :
    l.find? (fun y => decide (key y = key x)) = some x :=
  find?_of_mem_dedupeByAux key l [] x hx

theorem key_covered_dedupeByAux {α β : Type} [DecidableEq β] (key : α → β) :
    ∀ (l : List α) (seen : List β) (x : α), x ∈ l →
      key x ∈ seen ∨ ∃ y, y ∈ dedupeByAux key l seen ∧ key y = key x := by
  intro l
  induction l with
  | nil => intro seen x hx; simp at hx
  | cons a as ih =>
    intro seen x hx
    simp only [dedupeByAux]
    rcases List.mem_cons.mp hx with h | h
    · subst h
      by_cases hs : key x ∈ seen
      · left; exact hs
      · right
        refine ⟨x, ?_, rfl⟩
        simp [hs]
    · by_cases hs : key a ∈ seen
      · simp only [if_pos hs]
        exact ih seen x h
      · simp only [if_neg hs]
        rcases ih (key a :: seen) x h with hin | ⟨y, hy, hk⟩
        · rcases List.mem_cons.mp hin with hk | hk
          · right; exact ⟨a, List.mem_cons_self a _, hk.symm⟩
          · left; exact hk
        · right; exact ⟨y, List.mem_cons_of_mem a hy, hk⟩

theorem key_covered_dedupeBy {α β : Type} [DecidableEq β] (key : α → β) (l : List α)
    (x : α) (hx : x ∈ l) : ∃ y, y ∈ dedupeBy key l ∧ key y = key x := by
  rcases key_covered_dedupeByAux key l [] x hx with h | h
  · simp at h
  · exact h

theorem mem_dedupeBy_id {α : Type} [DecidableEq α] (l : List α) (x : α) (hx : x ∈ l) :
    x ∈ dedupeBy id l := by
  rcases key_covered_dedupeBy id l x hx with ⟨y, hy, hk⟩
  simpa [show y = x from hk] using hy

/-- Stable insertion (descending by a `Nat` key): an earlier element is placed
before later elements with an equal key, matching the stable JS sort. -/
def insertDescBy {α : Type} (key : α → Nat) (x : α) : List α → List α
  | [] => [x]
  | y :: ys => if key y ≤ key x then x :: y :: ys else y :: insertDescBy key x ys

/-- Stable sort, descending by a `Nat` key; models
`arr.sort((a, b) => keyB - keyA)` (JS sort is stable). -/
def sortDescBy {α : Type} (key : α → Nat) : List α → List α
  | [] => []
  | x :: xs => insertDescBy key x (sortDescBy key xs)

theorem insertDescBy_perm {α : Type} (key : α → Nat) (x : α) :
    ∀ l : List α, (insertDescBy key x l).Perm (x :: l) := by
  intro l
  induction l with
  | nil => exact List.Perm.refl _
  | cons y ys ih =>
    simp only [insertDescBy]
    split
    · exact List.Perm.refl _
    · exact (ih.cons y).trans (List.Perm.swap x y ys)

theorem sortDescBy_perm {α : Type} (key : α → Nat) :
    ∀ l : List α, (sortDescBy key l).Perm l := by
  intro l
  induction l with
  | nil => exact List.Perm.refl _
  | cons x xs ih =>
    exact (insertDescBy_perm key x (sortDescBy key xs)).trans (ih.cons x)

theorem insertDescBy_sorted {α : Type} (key : α → Nat) (x : α) :
    ∀ l : List α, l.Pairwise (fun a b => key b ≤ key a) →
      (insertDescBy key x l).Pairwise (fun a b => key b ≤ key a) := by
  intro l
  induction l with
  | nil => intro _; simp [insertDescBy]
  | cons y ys ih =>
    intro h
    rcases List.pairwise_cons.mp h with ⟨hy, hys⟩
    simp only [insertDescBy]
    split
    · refine List.pairwise_cons.mpr ⟨?_, h⟩
      intro z hz
      rcases List.mem_cons.mp hz with hz | hz
      · subst hz; assumption
      · exact le_trans (hy z hz) (by assumption)
    · refine List.pairwise_cons.mpr ⟨?_, ih hys⟩
      intro z hz
      have hz' := (insertDescBy_perm key x ys).mem_iff.mp hz
      rcases List.mem_cons.mp hz' with hz' | hz'
      · subst hz'
        exact le_of_lt (Nat.lt_of_not_le (by assumption))
      · exact hy z hz'

theorem sortDescBy_sorted {α : Type} (key : α → Nat) :
    ∀ l : List α, (sortDescBy key l).Pairwise (fun a b => key b ≤ key a) := by
  intro l
  induction l with
  | nil => simp [sortDescBy]
  | cons x xs ih => exact insertDescBy_sorted key x (sortDescBy key xs) ih

/-- Stable insertion, ascending by a `Nat` key (used for relevance ranking). -/
def insertAscBy {α : Type} (key : α → Nat) (x : α) : List α → List α
  | [] => [x]
  | y :: ys => if key x ≤ key y then x :: y :: ys else y :: insertAscBy key x ys

/-- Stable sort, ascending by a `Nat` key. -/
def sortAscBy {α : Type} (key : α → Nat) : List α → List α
  | [] => []
  | x :: xs => insertAscBy key x (sortAscBy key xs)

theorem insertAscBy_perm {α : Type} (key : α → Nat) (x : α) :
    ∀ l : List α, (insertAscBy key x l).Perm (x :: l) := by
  intro l
  induction l with
  | nil => exact List.Perm.refl _
  | cons y ys ih =>
    simp only [insertAscBy]
    split
    · exact List.Perm.refl _
    · exact (ih.cons y).trans (List.Perm.swap x y ys)

theorem sortAscBy_perm {α : Type} (key : α → Nat) :
    ∀ l : List α, (sortAscBy key l).Perm l := by
  intro l
  induction l with
  | nil => exact List.Perm.refl _
  | cons x xs ih =>
    exact (insertAscBy_perm key x (sortAscBy key xs)).trans (ih.cons x)

/-- `Promise.all` over a list of independent bridge calls: the first rejection
rejects the whole batch, otherwise all results are collected in order. -/
def promiseAll {α β ε : Type} (f : α → Except ε β) : List α → Except ε (List β)
  | [] => .ok []
  | x :: xs =>
    match f x with
    | .error e => .error e
    | .ok y =>
      match promiseAll f xs with
      | .error e => .error e
      | .ok ys => .ok (y :: ys)

/-- One (account, mailbox) pair of the mailbox directory
(`interface MailboxEntry` in `src/utils/mail.ts`). -/
structure MailboxEntry where
  account : String
  mailbox : String
deriving DecidableEq

/-- The string key `account + "/" + mailbox` the code uses for validation and
deduplication of directory entries. -/
def mailboxKey (mb : MailboxEntry) : String := mb.account ++ "/" ++ mb.mailbox

/-- One account as enumerated by the JXA bridge in `listMailboxes`:
its name and the names of its mailboxes, in listing order. -/
structure MailAccount where
  name : String
  mailboxNames : List String
deriving DecidableEq

/-- The raw enumeration built by the JXA body of `listMailboxes`
(`src/utils/mail.ts:1744-1767`): every account's mailboxes, followed by the
local mailboxes tagged with the synthetic account name `"On My Mac"`.
`localNames = none` models the `catch` branch where `Mail.localMailboxes()`
fails and is silently skipped. -/
def listMailboxesRaw (accounts : List MailAccount) (localNames : Option (List String)) :
    List MailboxEntry :=
  (accounts.map (fun a => a.mailboxNames.map (fun m => MailboxEntry.mk a.name m))).flatten
    ++ (match localNames with
        | some ls => ls.map (fun m => MailboxEntry.mk "On My Mac" m)
        | none => [])

/-- The deduplication step of `listMailboxes` (`src/utils/mail.ts:1769-1780`):
entries are deduplicated by the key `account + "/" + mailbox`,
first occurrence kept. -/
def listMailboxesCore (accounts : List MailAccount) (localNames : Option (List String)) :
    List MailboxEntry :=
  dedupeBy mailboxKey (listMailboxesRaw accounts localNames)

/-- `listMailboxes` (`src/utils/mail.ts:1738-1788`): the `checkMailAccess`
gate (which either returns a boolean or throws) followed by the JXA
enumeration and deduplication; a thrown access error is rewrapped by the
outer `catch`. -/
def listMailboxes (access : Except String Bool) (accounts : List MailAccount)
    (localNames : Option (List String)) : Except String (List MailboxEntry) :=
  match access with
  | .error m => .error ("Error listing mailboxes: " ++ m)
  | .ok false => .ok []
  | .ok true => .ok (listMailboxesCore accounts localNames)

/-- One listed message (`interface EmailMessage` in `src/utils/mail.ts`). -/
structure Email where
  account : String
  mailbox : String
  messageId : String
  subject : String
  sender : String
  dateReceived : Option String
  isRead : Bool
  isFlagged : Bool
deriving DecidableEq

/-- Arguments of `listEmails` (`interface ListEmailsParams`). -/
structure ListEmailsParams where
  searchTerm : Option String
  limit : Option Nat
  accountName : Option String
  mailboxName : Option String
  isRead : Option Bool
  isFlagged : Option Bool

/-- The sort key of `listEmails`' date sort
(`src/utils/mail.ts:1071-1075`): a message without a date gets key `0`
(the JS code uses `new Date(s).getTime()` with `0` as the undated default;
`parseDate` abstracts the JS date parser). -/
def dateKey (parseDate : String → Nat) (e : Email) : Nat :=
  match e.dateReceived with
  | some s => parseDate s
  | none => 0

/-- JS truthiness of an optional string argument: an absent argument and the
empty string are both falsy. -/
def jsStringArg (o : Option String) : Option String :=
  match o with
  | none => none
  | some s => if s = "" then none else some s

/-- The error text of `listEmails`' account validation
(`src/utils/mail.ts:933-937`) and of `moveEmails`/`copyEmails` target
validation (`src/utils/mail.ts:1248`, `1392`): names the missing account and
lists the available accounts. -/
def accountNotFoundMsg (a : String) (accounts : List String) : String :=
  "Account \"" ++ a ++ "\" not found. Available accounts: " ++
    String.intercalate ", " accounts

/-- The error text of a failed mailbox lookup in an account
(`src/utils/mail.ts:1247`, `1391`): names the missing mailbox and lists the
account's available mailboxes. -/
def mailboxNotFoundMsg (m a : String) (avail : List String) : String :=
  "Mailbox \"" ++ m ++ "\" not found in account \"" ++ a ++
    "\". Available mailboxes: " ++ String.intercalate ", " avail

/-- The error text of `listEmails`' account-only inbox resolution when the
account has no case-insensitive "Inbox" (`src/utils/mail.ts:1020-1026`). -/
def noInboxMsg (a : String) (avail : List String) : String :=
  "No inbox found in account '" ++ a ++ "'. Available mailboxes: " ++
    String.intercalate ", " avail

/-- The name validation of `listEmails` (`src/utils/mail.ts:930-954`):
the account must own at least one directory entry, and an explicitly given
mailbox name must occur verbatim (case-sensitively) in the directory. -/
def validateNames (mbs : List MailboxEntry) (acctOpt mboxOpt : Option String) :
    Except String Unit :=
  match acctOpt with
  | some a =>
    if mbs.any (fun mb => mb.account == a) then
      match mboxOpt with
      | some m =>
        if mbs.any (fun mb => mb.account == a && mb.mailbox == m) then .ok ()
        else .error ("Mailbox \"" ++ m ++ "\" not found in account \"" ++ a ++
          "\". Available mailboxes: " ++ String.intercalate ", "
            ((mbs.filter (fun mb => mb.account == a)).map MailboxEntry.mailbox))
      | none => .ok ()
    else .error (accountNotFoundMsg a (dedupeBy id (mbs.map MailboxEntry.account)))
  | none =>
    match mboxOpt with
    | some m =>
      if mbs.any (fun mb => mb.mailbox == m) then .ok ()
      else .error ("Mailbox \"" ++ m ++ "\" not found. Available mailboxes: " ++
        String.intercalate ", " (dedupeBy id (mbs.map MailboxEntry.mailbox)))
    | none => .ok ()

/-- The mailbox-set resolution of `listEmails`
(`src/utils/mail.ts:1011-1048`): both names → that single pair; account only
→ the account's last directory mailbox whose lowercased name is "inbox"
(error if none); mailbox only → every directory entry matching
case-insensitively; neither → every case-insensitive "Inbox"; followed by the
pairwise deduplication of the fetch list (`src/utils/mail.ts:1045-1048`). -/
def resolveMailboxes (mbs : List MailboxEntry) (acctOpt mboxOpt : Option String) :
    Except String (List MailboxEntry) :=
  match acctOpt, mboxOpt with
  | some a, some m => .ok (dedupeBy id [MailboxEntry.mk a m])
  | some a, none =>
    match (mbs.filter
        (fun mb => mb.account == a && lowerStr mb.mailbox == "inbox")).getLast? with
    | some mb => .ok (dedupeBy id [MailboxEntry.mk a mb.mailbox])
    | none => .error (noInboxMsg a
        ((mbs.filter (fun mb => mb.account == a)).map MailboxEntry.mailbox))
  | none, some m =>
    .ok (dedupeBy id (mbs.filter (fun mb => lowerStr mb.mailbox == lowerStr m)))
  | none, none =>
    .ok (dedupeBy id (mbs.filter (fun mb => lowerStr mb.mailbox == "inbox")))

/-- `fuse.js` search as used at `src/utils/mail.ts:1077-1085`, modelled by a
score oracle: items the library does not match (score `none`, i.e. above the
similarity threshold) are dropped, the rest are ranked by ascending score
(best match first, stable). -/
def fuseSearch {α : Type} (score : α → Option Nat) (l : List α) : List α :=
  sortAscBy (fun x => (score x).getD 0) (l.filter (fun x => (score x).isSome))

/-- Whether the fuzzy-search branch runs
(`if (searchTerm && searchTerm.trim() !== "")`): the term must contain a
non-whitespace character. -/
def searchActive (searchTerm : Option String) : Bool :=
  match searchTerm with
  | some t => t.data.any (fun c => !c.isWhitespace)
  | none => false

/-- The fuzzy-search stage of `listEmails` (`src/utils/mail.ts:1077-1085`):
runs only when the term contains a non-whitespace character
(`if (searchTerm && searchTerm.trim() !== "")`). -/
def searchStage (score : String → Email → Option Nat) (st : Option String)
    (l : List Email) : List Email :=
  match st with
  | some t => if t.data.any (fun c => !c.isWhitespace) then fuseSearch (score t) l else l
  | none => l

/-- An optional boolean filter stage of `listEmails`
(`src/utils/mail.ts:1087-1093`). -/
def boolFilterStage (proj : Email → Bool) (ob : Option Bool) (l : List Email) :
    List Email :=
  match ob with
  | some b => l.filter (fun e => proj e == b)
  | none => l

/-- The truncation stage of `listEmails` (`src/utils/mail.ts:1095`):
`limit ? allEmails.slice(0, limit) : allEmails` — a limit of `0` is falsy in
JS and, like an absent limit, disables truncation. -/
def limitStage (ol : Option Nat) (l : List Email) : List Email :=
  match ol with
  | some n => if n ≠ 0 then l.take n else l
  | none => l

/-- The client-side pipeline of `listEmails` on the flattened fetch results
(`src/utils/mail.ts:1059-1095`): dedupe by `messageId` (first occurrence
wins), stable sort by date-received descending (undated = key 0), optional
fuzzy search, optional `isRead`/`isFlagged` filters, optional truncation. -/
def postProcess (parseDate : String → Nat) (score : String → Email → Option Nat)
    (p : ListEmailsParams) (fetched : List Email) : List Email :=
  limitStage p.limit
    (boolFilterStage Email.isFlagged p.isFlagged
      (boolFilterStage Email.isRead p.isRead
        (searchStage score p.searchTerm
          (sortDescBy (dateKey parseDate) (dedupeBy Email.messageId fetched)))))

/-- `listEmails` (`src/utils/mail.ts:914-1102`): access gate, directory
lookup, name validation, mailbox resolution, concurrent per-mailbox fetch
(the `fetch` oracle; a failed fetch yields `[]` inside the JXA body), and the
client-side pipeline. Thrown errors are rewrapped by the outer `catch`. -/
def listEmails (access : Except String Bool) (dir : Except String (List MailboxEntry))
    (fetch : MailboxEntry → List Email) (parseDate : String → Nat)
    (score : String → Email → Option Nat) (p : ListEmailsParams) :
    Except String (List Email) :=
  match access with
  | .error m => .error ("Error listing emails: " ++ m)
  | .ok false => .ok []
  | .ok true =>
    match dir with
    | .error m => .error ("Error listing emails: " ++ m)
    | .ok mbs =>
      match validateNames mbs (jsStringArg p.accountName) (jsStringArg p.mailboxName) with
      | .error m => .error ("Error listing emails: " ++ m)
      | .ok _ =>
        match resolveMailboxes mbs (jsStringArg p.accountName) (jsStringArg p.mailboxName) with
        | .error m => .error ("Error listing emails: " ++ m)
        | .ok toFetch =>
          if toFetch.isEmpty then .ok []
          else .ok (postProcess parseDate score p ((toFetch.map fetch).flatten))

/-- One batch-read request (`interface ReadEmailRequest` in
`src/utils/mail.ts`). -/
structure ReadEmailRequest where
  messageId : String
deriving DecidableEq

/-- One batch-read result (`interface ReadEmailDetails` in
`src/utils/mail.ts`): always echoes the request's `messageId` and carries a
success flag; optional fields are absent on failure. -/
structure ReadEmailDetails where
  messageId : String
  account : Option String
  mailbox : Option String
  subject : String
  sender : String
  dateReceived : Option String
  isRead : Option Bool
  isFlagged : Option Bool
  content : Option String
  success : Bool
  error : Option String
deriving DecidableEq

/-- Outcome of the per-message JXA scan of `readEmails`
(`src/utils/mail.ts:1146-1185`): the message is found in some mailbox with
its raw fields (`subject`/`sender` may be null, modelled as `Option`), or the
scan exhausts all mailboxes without a match. -/
inductive MessageLookup
  | found (account mailbox : String) (subjectRaw senderRaw : Option String)
      (dateReceived : Option String) (isRead isFlagged : Bool) (content : String)
  | absent
deriving DecidableEq

/-- The failure-shaped result `readEmails` builds for a request
(empty subject/sender, `success:false`, an error string). -/
def failedReadDetail (mid err : String) : ReadEmailDetails :=
  ⟨mid, none, none, "", "", none, none, none, none, false, some err⟩

/-- The per-message read (`readMessage` in `src/utils/mail.ts:1145-1186`):
a bridge rejection propagates (to be caught by `readEmails`' outer `catch`),
a found message becomes a successful detail with the `"[No Subject]"` /
`"[Unknown Sender]"` defaults, and an exhausted scan becomes a per-item
failure. -/
def readMessage (lookup : String → Except String MessageLookup) (mid : String) :
    Except String ReadEmailDetails :=
  match lookup mid with
  | .error m => .error m
  | .ok (.found acct mbox subjRaw sendRaw dr ir fl content) =>
    .ok ⟨mid, some acct, some mbox, subjRaw.getD "[No Subject]",
      sendRaw.getD "[Unknown Sender]", dr, some ir, some fl, some content, true, none⟩
  | .ok .absent =>
    .ok (failedReadDetail mid ("Could not find or read email with ID: " ++ mid))

/-- `readEmails` (`src/utils/mail.ts:1122-1203`): if the access gate throws,
one failed result per original request; otherwise requests are deduplicated
by `messageId` (first occurrence wins), the unique requests are read in
parallel (`Promise.all`), and — note — the list of per-unique results is
returned as-is, without re-expansion to the original request list; a
rejection of the parallel read is caught and yields one failed result per
original request. The function never throws: every path returns a list. -/
def readEmails (access : Except String Bool)
    (lookup : String → Except String MessageLookup)
    (readRequests : List ReadEmailRequest) : List ReadEmailDetails :=
  match access with
  | .error m =>
    readRequests.map (fun r => failedReadDetail r.messageId ("Error reading emails: " ++ m))
  | .ok false =>
    readRequests.map (fun r => failedReadDetail r.messageId "Mail app not accessible.")
  | .ok true =>
    let uniqueReadRequests := dedupeBy ReadEmailRequest.messageId readRequests
    match promiseAll (fun r => readMessage lookup r.messageId) uniqueReadRequests with
    | .ok readResults => readResults
    | .error m =>
      readRequests.map (fun r => failedReadDetail r.messageId ("Error reading emails: " ++ m))

/-- One move request (`interface MoveEmailRequest` in `src/utils/mail.ts`). -/
structure MoveEmailRequest where
  messageId : String
  targetMailboxName : String
  targetAccountName : String
deriving DecidableEq

/-- Itemized move outcome (`interface MovedEmailDetails`). -/
structure MovedEmailDetails where
  messageId : String
  success : Bool
  error : Option String
deriving DecidableEq

/-- The structured result of `moveEmails`. -/
structure MoveEmailsResult where
  success : Bool
  message : String
  movedEmail : MovedEmailDetails
deriving DecidableEq

/-- A mutating call issued to the scripting bridge by the move / copy
coordinators (the JXA `run` blocks at `src/utils/mail.ts:1262-1307` and
`1406-1451`). -/
inductive MailBridgeCall
  | moveMessage (messageId targetMailbox targetAccount : String)
  | copyMessage (messageId targetMailbox targetAccount : String)
deriving DecidableEq

/-- The validation-failure message built by `moveEmails` / `copyEmails`
(`src/utils/mail.ts:1240-1248`, `1384-1392`): when the target account owns at
least one directory mailbox, the message names the missing mailbox and lists
that account's actually-available mailboxes; otherwise it reports the
account as not found and lists the available accounts. -/
def targetRejectMsg (mbs : List MailboxEntry) (tm ta : String) : String :=
  let availForAcct :=
    (mbs.filter (fun mb => mb.account == ta)).map MailboxEntry.mailbox
  if availForAcct.length > 0 then mailboxNotFoundMsg tm ta availForAcct
  else accountNotFoundMsg ta (dedupeBy id (mbs.map MailboxEntry.account))

/-- `moveEmails` (`src/utils/mail.ts:1217-1347`): access gate, directory
lookup, validation of the target against the set of `account + "/" + mailbox`
keys, then — only when validation passes — the single mutating bridge call
(`bridgeMove` returns the JXA `wasSuccessful` boolean or rejects). The second
component of the result is the list of mutating bridge calls issued. -/
def moveEmails (access : Except String Bool) (dir : Except String (List MailboxEntry))
    (bridgeMove : String → String → String → Except String Bool)
    (req : MoveEmailRequest) : MoveEmailsResult × List MailBridgeCall :=
  match access with
  | .error m =>
    (⟨false, "Error moving email: " ++ m,
      ⟨req.messageId, false, some ("Error moving email: " ++ m)⟩⟩, [])
  | .ok false =>
    (⟨false, "Mail app not accessible.",
      ⟨req.messageId, false, some "Mail app not accessible."⟩⟩, [])
  | .ok true =>
    match dir with
    | .error m =>
      (⟨false, "Error moving email: " ++ m,
        ⟨req.messageId, false, some ("Error moving email: " ++ m)⟩⟩, [])
    | .ok mbs =>
      let targetKey := req.targetAccountName ++ "/" ++ req.targetMailboxName
      if targetKey ∈ mbs.map mailboxKey then
        match bridgeMove req.messageId req.targetMailboxName req.targetAccountName with
        | .ok true =>
          (⟨true, "Successfully moved message.", ⟨req.messageId, true, none⟩⟩,
            [MailBridgeCall.moveMessage req.messageId req.targetMailboxName
              req.targetAccountName])
        | .ok false =>
          (⟨false, "Failed to move message.",
            ⟨req.messageId, false, some "Move operation failed"⟩⟩,
            [MailBridgeCall.moveMessage req.messageId req.targetMailboxName
              req.targetAccountName])
        | .error m =>
          (⟨false, "Error moving email: " ++ m,
            ⟨req.messageId, false, some ("JXA execution failed: " ++ m)⟩⟩,
            [MailBridgeCall.moveMessage req.messageId req.targetMailboxName
              req.targetAccountName])
      else
        let msg := targetRejectMsg mbs req.targetMailboxName req.targetAccountName
        (⟨false, msg, ⟨req.messageId, false, some msg⟩⟩, [])

/-- One copy request (`interface CopyEmailRequest` in `src/utils/mail.ts`). -/
structure CopyEmailRequest where
  messageId : String
  targetMailboxName : String
  targetAccountName : String
deriving DecidableEq

/-- Itemized copy outcome (`interface CopiedEmailDetails`). -/
structure CopiedEmailDetails where
  messageId : String
  success : Bool
  error : Option String
deriving DecidableEq

/-- The structured result of `copyEmails`. -/
structure CopyEmailsResult where
  success : Bool
  message : String
  copiedEmail : CopiedEmailDetails
deriving DecidableEq

/-- `copyEmails` (`src/utils/mail.ts:1361-1491`): same shape as `moveEmails`
with the `duplicate` bridge primitive and copy-flavoured messages. -/
def copyEmails (access : Except String Bool) (dir : Except String (List MailboxEntry))
    (bridgeCopy : String → String → String → Except String Bool)
    (req : CopyEmailRequest) : CopyEmailsResult × List MailBridgeCall :=
  match access with
  | .error m =>
    (⟨false, "Error copying email: " ++ m,
      ⟨req.messageId, false, some ("Error copying email: " ++ m)⟩⟩, [])
  | .ok false =>
    (⟨false, "Mail app not accessible.",
      ⟨req.messageId, false, some "Mail app not accessible."⟩⟩, [])
  | .ok true =>
    match dir with
    | .error m =>
      (⟨false, "Error copying email: " ++ m,
        ⟨req.messageId, false, some ("Error copying email: " ++ m)⟩⟩, [])
    | .ok mbs =>
      let targetKey := req.targetAccountName ++ "/" ++ req.targetMailboxName
      if targetKey ∈ mbs.map mailboxKey then
        match bridgeCopy req.messageId req.targetMailboxName req.targetAccountName with
        | .ok true =>
          (⟨true, "Successfully copied message.", ⟨req.messageId, true, none⟩⟩,
            [MailBridgeCall.copyMessage req.messageId req.targetMailboxName
              req.targetAccountName])
        | .ok false =>
          (⟨false, "Failed to copy message.",
            ⟨req.messageId, false, some "Copy operation failed"⟩⟩,
            [MailBridgeCall.copyMessage req.messageId req.targetMailboxName
              req.targetAccountName])
        | .error m =>
          (⟨false, "Error copying email: " ++ m,
            ⟨req.messageId, false, some ("JXA execution failed: " ++ m)⟩⟩,
            [MailBridgeCall.copyMessage req.messageId req.targetMailboxName
              req.targetAccountName])
      else
        let msg := targetRejectMsg mbs req.targetMailboxName req.targetAccountName
        (⟨false, msg, ⟨req.messageId, false, some msg⟩⟩, [])

deriving instance DecidableEq for Except

/-- Behaviour of the scripting bridge during one `archiveEmails` JXA run
(`src/utils/mail.ts:1520-1585`), one flag per fallible step:
whether the search loop locates the message, whether `Mail.archive` succeeds,
whether resolving `foundMessage.mailbox().account()` succeeds, whether the
move to Trash succeeds, the outcome of the Trash lookup
(`.error ()` = the `whose` call raised, caught by the inner `try`;
`.ok b` = the lookup returned, with `b` = a matching message was found), and
whether the move to Archive succeeds. -/
structure ArchiveBridge where
  located : Bool
  nativeArchiveOk : Bool
  sourceAccountOk : Bool
  moveToTrashOk : Bool
  trashLookupFound : Except Unit Bool
  moveToArchiveOk : Bool
deriving DecidableEq

/-- The bridge calls issued during one `archiveEmails` run, in order. -/
inductive ArchiveOp
  | nativeArchive (messageId : String)
  | moveToTrash (messageId : String)
  | trashLookup (messageId : String)
  | moveToArchive (messageId : String)
deriving DecidableEq

/-- The JXA body of `archiveEmails` (`src/utils/mail.ts:1520-1585`):
locate the message; try the native `Mail.archive`; on failure fall back to
move-to-Trash, look the message up in Trash, and move it from Trash to
Archive; any failure on the fallback path leaves `wasSuccess` false.
Returns the `wasSuccess` boolean and the ordered trace of bridge calls. -/
def archiveRun (b : ArchiveBridge) (mid : String) : Bool × List ArchiveOp :=
  if !b.located then (false, [])
  else if b.nativeArchiveOk then (true, [ArchiveOp.nativeArchive mid])
  else if !b.sourceAccountOk then (false, [ArchiveOp.nativeArchive mid])
  else if !b.moveToTrashOk then
    (false, [ArchiveOp.nativeArchive mid, ArchiveOp.moveToTrash mid])
  else
    match b.trashLookupFound with
    | .error _ =>
      (false, [ArchiveOp.nativeArchive mid, ArchiveOp.moveToTrash mid,
        ArchiveOp.trashLookup mid])
    | .ok false =>
      (false, [ArchiveOp.nativeArchive mid, ArchiveOp.moveToTrash mid,
        ArchiveOp.trashLookup mid])
    | .ok true =>
      (b.moveToArchiveOk,
        [ArchiveOp.nativeArchive mid, ArchiveOp.moveToTrash mid,
          ArchiveOp.trashLookup mid, ArchiveOp.moveToArchive mid])

/-- Itemized archive outcome (`interface ArchivedEmailDetails`). -/
structure ArchivedEmailDetails where
  messageId : String
  success : Bool
  error : Option String
deriving DecidableEq

/-- The structured result of `archiveEmails`. -/
structure ArchiveEmailsResult where
  success : Bool
  message : String
  archivedEmail : ArchivedEmailDetails
deriving DecidableEq

/-- `archiveEmails` (`src/utils/mail.ts:1503-1625`): access gate, then the
JXA run (`bridge = .error m` models a rejection of the `run` promise itself,
caught at `src/utils/mail.ts:1598`), then the aggregation of `wasSuccessful`
into the structured result. -/
def archiveEmails (access : Except String Bool) (bridge : Except String ArchiveBridge)
    (mid : String) : ArchiveEmailsResult × List ArchiveOp :=
  match access with
  | .error m =>
    (⟨false, "Error archiving email: " ++ m,
      ⟨mid, false, some ("Error archiving email: " ++ m)⟩⟩, [])
  | .ok false =>
    (⟨false, "Mail app not accessible.",
      ⟨mid, false, some "Mail app not accessible."⟩⟩, [])
  | .ok true =>
    match bridge with
    | .error m =>
      (⟨false, "Error archiving email: " ++ m,
        ⟨mid, false, some ("JXA execution failed: " ++ m)⟩⟩, [])
    | .ok b =>
      let r := archiveRun b mid
      if r.1 then
        (⟨true, "Successfully archived message.", ⟨mid, true, none⟩⟩, r.2)
      else
        (⟨false, "Failed to archive message.",
          ⟨mid, false, some "Archiving failed"⟩⟩, r.2)

/-- The `createDraft` tool arguments after the structural `typeof` checks
(`type CreateDraftArgs` in `src/index.ts`). -/
structure DraftArgs where
  isReply : Bool
  originalMessageId : Option String
  toAddress : Option String
  subject : String
  body : String
  attachmentPath : Option String
deriving DecidableEq

/-- The argument guard `isCreateDraftArgs` (`src/index.ts:540-553`): on a
well-typed record the only remaining check is that a reply carries an
`originalMessageId` string. -/
def isCreateDraftArgs (args : DraftArgs) : Bool :=
  !(args.isReply && args.originalMessageId.isNone)

/-- JS falsiness of an optional string field: absent or empty. -/
def jsFalsyStr (o : Option String) : Bool :=
  match o with
  | none => true
  | some s => s == ""

/-- The textual tool response of the MCP request handler. -/
structure ToolTextResult where
  text : String
  isError : Bool
deriving DecidableEq

/-- The result record of `createDraftEmail` in `src/utils/mail.ts`
(produced behind the bridge; never thrown). -/
structure CreateDraftOutcome where
  success : Bool
  message : String
  draftId : Option String
deriving DecidableEq

/-- A call into the mail module's draft creation (the first point at which
the scripting bridge would be touched). -/
inductive DraftOp
  | createDraftCall
deriving DecidableEq

/-- The `createDraft` branch of the tool request handler
(`src/index.ts:129-163`): the `isCreateDraftArgs` guard throws (caught by the
handler's outermost `catch`, `src/index.ts:416-426`), the explicit
`isReply && !originalMessageId` re-check throws (caught by the branch-local
`catch`), and only then is `createDraftEmail` invoked (`outcome` oracle).
The second component is the list of draft-creation calls issued. -/
def createDraftHandler (args : DraftArgs) (outcome : CreateDraftOutcome) :
    ToolTextResult × List DraftOp :=
  if !(isCreateDraftArgs args) then
    (⟨"Error: Invalid arguments for createDraft tool", true⟩, [])
  else if args.isReply && jsFalsyStr args.originalMessageId then
    (⟨"Error with createDraft operation: originalMessageId is required when isReply is true.",
      true⟩, [])
  else
    (⟨outcome.message, !outcome.success⟩, [DraftOp.createDraftCall])

theorem mem_of_mem_sortDescBy {α : Type} (key : α → Nat) (l : List α) (x : α)
    (hx : x ∈ sortDescBy key l) : x ∈ l :=
  (sortDescBy_perm key l).mem_iff.mp hx

theorem mem_of_mem_fuseSearch {α : Type} (score : α → Option Nat) (l : List α)
    (x : α) (hx : x ∈ fuseSearch score l) : x ∈ l := by
  have h1 := (sortAscBy_perm (fun y => (score y).getD 0)
    (l.filter (fun y => (score y).isSome))).mem_iff.mp hx
  exact List.mem_of_mem_filter h1

theorem mem_of_mem_searchStage (score : String → Email → Option Nat)
    (st : Option String) (l : List Email) (x : Email)
    (hx : x ∈ searchStage score st l) : x ∈ l := by
  cases st with
  | none => exact hx
  | some t =>
    simp only [searchStage] at hx
    split at hx
    · exact mem_of_mem_fuseSearch _ _ _ hx
    · exact hx

theorem boolFilterStage_sublist (proj : Email → Bool) (ob : Option Bool)
    (l : List Email) : List.Sublist (boolFilterStage proj ob l) l := by
  cases ob with
  | none => exact List.Sublist.refl l
  | some b => exact List.filter_sublist l

theorem limitStage_sublist (ol : Option Nat) (l : List Email) :
    List.Sublist (limitStage ol l) l := by
  cases ol with
  | none => exact List.Sublist.refl l
  | some n =>
    simp only [limitStage]
    split
    · exact List.take_sublist n l
    · exact List.Sublist.refl l

theorem limitStage_length_le (n : Nat) (hn : n ≠ 0) (l : List Email) :
    (limitStage (some n) l).length ≤ n := by
  simp only [limitStage, if_pos hn]
  exact List.length_take_le n l

theorem searchStage_inactive (score : String → Email → Option Nat)
    (st : Option String) (l : List Email) (h : searchActive st = false) :
    searchStage score st l = l := by
  cases st with
  | none => rfl
  | some t =>
    simp only [searchActive] at h
    simp [searchStage, h]

theorem nodupIds_sortDescBy (key : Email → Nat) (l : List Email)
    (h : (l.map Email.messageId).Nodup) :
    ((sortDescBy key l).map Email.messageId).Nodup :=
  (((sortDescBy_perm key l).map Email.messageId).nodup_iff).mpr h

theorem nodupIds_fuseSearch (score : Email → Option Nat) (l : List Email)
    (h : (l.map Email.messageId).Nodup) :
    ((fuseSearch score l).map Email.messageId).Nodup := by
  have h1 : ((l.filter (fun y => (score y).isSome)).map Email.messageId).Nodup :=
    h.sublist ((List.filter_sublist l).map Email.messageId)
  exact (((sortAscBy_perm (fun y => (score y).getD 0)
    (l.filter (fun y => (score y).isSome))).map Email.messageId).nodup_iff).mpr h1

theorem nodupIds_searchStage (score : String → Email → Option Nat)
    (st : Option String) (l : List Email)
    (h : (l.map Email.messageId).Nodup) :
    ((searchStage score st l).map Email.messageId).Nodup := by
  cases st with
  | none => exact h
  | some t =>
    simp only [searchStage]
    split
    · exact nodupIds_fuseSearch _ l h
    · exact h

theorem mem_postProcess (pd : String → Nat) (score : String → Email → Option Nat)
    (p : ListEmailsParams) (f : List Email) (e : Email)
    (he : e ∈ postProcess pd score p f) : e ∈ dedupeBy Email.messageId f := by
  unfold postProcess at he
  have h1 := (limitStage_sublist p.limit _).mem he
  have h2 := (boolFilterStage_sublist Email.isFlagged p.isFlagged _).mem h1
  have h3 := (boolFilterStage_sublist Email.isRead p.isRead _).mem h2
  have h4 := mem_of_mem_searchStage score p.searchTerm _ e h3
  exact mem_of_mem_sortDescBy _ _ e h4

theorem nodupIds_postProcess (pd : String → Nat) (score : String → Email → Option Nat)
    (p : ListEmailsParams) (f : List Email) :
    ((postProcess pd score p f).map Email.messageId).Nodup := by
  unfold postProcess
  have h0 : ((dedupeBy Email.messageId f).map Email.messageId).Nodup :=
    nodup_keys_dedupeBy Email.messageId f
  have h1 := nodupIds_sortDescBy (dateKey pd) _ h0
  have h2 := nodupIds_searchStage score p.searchTerm _ h1
  have h3 := h2.sublist ((boolFilterStage_sublist Email.isRead p.isRead _).map _)
  have h4 := h3.sublist ((boolFilterStage_sublist Email.isFlagged p.isFlagged _).map _)
  exact h4.sublist ((limitStage_sublist p.limit _).map _)

theorem sorted_postProcess (pd : String → Nat) (score : String → Email → Option Nat)
    (p : ListEmailsParams) (f : List Email) (h : searchActive p.searchTerm = false) :
    (postProcess pd score p f).Pairwise (fun a b => dateKey pd b ≤ dateKey pd a) := by
  unfold postProcess
  rw [searchStage_inactive score p.searchTerm _ h]
  have h1 := sortDescBy_sorted (dateKey pd) (dedupeBy Email.messageId f)
  have h2 := h1.sublist (boolFilterStage_sublist Email.isRead p.isRead _)
  have h3 := h2.sublist (boolFilterStage_sublist Email.isFlagged p.isFlagged _)
  exact h3.sublist (limitStage_sublist p.limit _)

theorem length_postProcess_le (pd : String → Nat) (score : String → Email → Option Nat)
    (p : ListEmailsParams) (f : List Email) (n : Nat) (hl : p.limit = some n)
    (hn : n ≠ 0) : (postProcess pd score p f).length ≤ n := by
  unfold postProcess
  rw [hl]
  exact limitStage_length_le n hn _

theorem mem_of_getLast? {α : Type} :
    ∀ (l : List α) (x : α), l.getLast? = some x → x ∈ l := by
  intro l
  induction l with
  | nil => intro x h; simp at h
  | cons a as ih =>
    intro x h
    cases as with
    | nil =>
      simp only [List.getLast?_singleton, Option.some.injEq] at h
      subst h
      exact List.mem_singleton_self a
    | cons b bs =>
      rw [List.getLast?_cons_cons] at h
      exact List.mem_cons_of_mem a (ih x h)

theorem promiseAll_mem {α β ε : Type} (f : α → Except ε β) :
    ∀ (l : List α) (rs : List β), promiseAll f l = .ok rs →
      ∀ r ∈ rs, ∃ x, x ∈ l ∧ f x = .ok r := by
  intro l
  induction l with
  | nil =>
    intro rs h r hr
    simp only [promiseAll] at h
    cases h
    simp at hr
  | cons x xs ih =>
    intro rs h r hr
    simp only [promiseAll] at h
    cases hfx : f x with
    | error e => rw [hfx] at h; cases h
    | ok y =>
      rw [hfx] at h
      cases hrest : promiseAll f xs with
      | error e => rw [hrest] at h; cases h
      | ok ys =>
        rw [hrest] at h
        cases h
        rcases List.mem_cons.mp hr with h | h
        · subst h; exact ⟨x, List.mem_cons_self x xs, hfx⟩
        · rcases ih ys hrest r h with ⟨z, hz, hfz⟩
          exact ⟨z, List.mem_cons_of_mem x hz, hfz⟩

theorem readMessage_echoes (lookup : String → Except String MessageLookup)
    (mid : String) (d : ReadEmailDetails) (h : readMessage lookup mid = .ok d) :
    d.messageId = mid := by
  unfold readMessage at h
  cases hv : lookup mid with
  | error m => rw [hv] at h; cases h
  | ok v =>
    rw [hv] at h
    cases v with
    | found acct mbox sr se dr ir fl c => cases h; rfl
    | absent => cases h; rfl

theorem readMessage_error_on_failure (lookup : String → Except String MessageLookup)
    (mid : String) (d : ReadEmailDetails) (h : readMessage lookup mid = .ok d) :
    d.success = false → d.error.isSome = true := by
  unfold readMessage at h
  cases hv : lookup mid with
  | error m => rw [hv] at h; cases h
  | ok v =>
    rw [hv] at h
    cases v with
    | found acct mbox sr se dr ir fl c => cases h; intro hfalse; cases hfalse
    | absent => cases h; intro _; rfl

theorem promiseAll_readMessage_ok (lookup : String → Except String MessageLookup)
    (hl : ∀ mid, ∃ v, lookup mid = .ok v) :
    ∀ l : List ReadEmailRequest,
      ∃ rs, promiseAll (fun r => readMessage lookup r.messageId) l = .ok rs ∧
        rs.map ReadEmailDetails.messageId = l.map ReadEmailRequest.messageId := by
  intro l
  induction l with
  | nil => exact ⟨[], rfl, rfl⟩
  | cons r rest ih =>
    rcases ih with ⟨rs, hrs, hmap⟩
    rcases hl r.messageId with ⟨v, hv⟩
    have hd : ∃ d, readMessage lookup r.messageId = .ok d ∧
        d.messageId = r.messageId := by
      cases v with
      | found acct mbox sr se dr ir fl c =>
        refine ⟨⟨r.messageId, some acct, some mbox, sr.getD "[No Subject]",
          se.getD "[Unknown Sender]", dr, some ir, some fl, some c, true, none⟩,
          ?_, rfl⟩
        simp [readMessage, hv]
      | absent =>
        refine ⟨failedReadDetail r.messageId
          ("Could not find or read email with ID: " ++ r.messageId), ?_, rfl⟩
        simp [readMessage, hv]
    rcases hd with ⟨d, hdok, hdid⟩
    refine ⟨d :: rs, ?_, ?_⟩
    · simp only [promiseAll, hdok, hrs]
    · simp [hmap, hdid]

theorem moveEmails_reject_eq (mbs : List MailboxEntry)
    (bm : String → String → String → Except String Bool) (req : MoveEmailRequest)
    (h : (req.targetAccountName ++ "/" ++ req.targetMailboxName) ∉ mbs.map mailboxKey) :
    moveEmails (.ok true) (.ok mbs) bm req =
      (⟨false, targetRejectMsg mbs req.targetMailboxName req.targetAccountName,
        ⟨req.messageId, false,
          some (targetRejectMsg mbs req.targetMailboxName req.targetAccountName)⟩⟩,
        []) := by
  simp [moveEmails, h]

theorem copyEmails_reject_eq (mbs : List MailboxEntry)
    (bc : String → String → String → Except String Bool) (req : CopyEmailRequest)
    (h : (req.targetAccountName ++ "/" ++ req.targetMailboxName) ∉ mbs.map mailboxKey) :
    copyEmails (.ok true) (.ok mbs) bc req =
      (⟨false, targetRejectMsg mbs req.targetMailboxName req.targetAccountName,
        ⟨req.messageId, false,
          some (targetRejectMsg mbs req.targetMailboxName req.targetAccountName)⟩⟩,
        []) := by
  simp [copyEmails, h]

/-- Claim C3 (amended): for every move request whose joined key
`targetAccountName ++ "/" ++ targetMailboxName` does not occur among the
directory's joined keys, `moveEmails` returns a result with `success:false`
whose error text lists the target account's actually-available mailboxes (or
the available accounts when the account owns no directory mailbox), and the
bridge's mutating move call is never issued. (The original claim spoke of the
(account, mailbox) *pair* being absent; validation actually compares joined
key strings, so distinct pairs that join to the same string are treated as
present — see the counterexample.) -/
theorem moveEmails_invalid_target_rejected (mbs : List MailboxEntry)
    (bm : String → String → String → Except String Bool) (req : MoveEmailRequest)
    (h : (req.targetAccountName ++ "/" ++ req.targetMailboxName) ∉ mbs.map mailboxKey) :
    (moveEmails (.ok true) (.ok mbs) bm req).1.success = false ∧
    (moveEmails (.ok true) (.ok mbs) bm req).1.movedEmail.success = false ∧
    (moveEmails (.ok true) (.ok mbs) bm req).2 = [] ∧
    (moveEmails (.ok true) (.ok mbs) bm req).1.message =
      targetRejectMsg mbs req.targetMailboxName req.targetAccountName := by
  rw [moveEmails_reject_eq mbs bm req h]
  exact ⟨rfl, rfl, rfl, rfl⟩

def cDirSlash : List MailboxEntry := [⟨"A/B", "C"⟩]

def cMoveReqSlash : MoveEmailRequest := ⟨"m1", "B/C", "A"⟩

def cBridgeAlwaysOk : String → String → String → Except String Bool :=
  fun _ _ _ => .ok true

/-- Claim C3, counterexample: the pair ("A", "B/C") does not appear in the
directory [("A/B", "C")], yet — because both join to the key "A/B/C" —
`moveEmails` passes validation, issues the mutating bridge call and reports
success. -/
theorem moveEmails_invalid_target_rejected_cex :
    MailboxEntry.mk "A" "B/C" ∉ cDirSlash ∧
    (moveEmails (.ok true) (.ok cDirSlash) cBridgeAlwaysOk cMoveReqSlash).1.success = true ∧
    (moveEmails (.ok true) (.ok cDirSlash) cBridgeAlwaysOk cMoveReqSlash).2 ≠ [] := by
  decide

def cDirIcloud : List MailboxEntry := [⟨"iCloud", "Inbox"⟩, ⟨"iCloud", "Archive"⟩]

def cMoveReqSaved : MoveEmailRequest := ⟨"81506", "Saved", "iCloud"⟩

/-- Claim C3, witness: moving message 81506 to the missing mailbox
iCloud/Saved is rejected without a bridge call, with the message listing
iCloud's available mailboxes. -/
theorem moveEmails_invalid_target_rejected_witness :
    (moveEmails (.ok true) (.ok cDirIcloud) cBridgeAlwaysOk cMoveReqSaved).1.success = false ∧
    (moveEmails (.ok true) (.ok cDirIcloud) cBridgeAlwaysOk cMoveReqSaved).1.movedEmail.success = false ∧
    (moveEmails (.ok true) (.ok cDirIcloud) cBridgeAlwaysOk cMoveReqSaved).2 = [] ∧
    (moveEmails (.ok true) (.ok cDirIcloud) cBridgeAlwaysOk cMoveReqSaved).1.message =
      targetRejectMsg cDirIcloud "Saved" "iCloud" :=
  moveEmails_invalid_target_rejected cDirIcloud cBridgeAlwaysOk cMoveReqSaved (by decide)

/-- Claim C9: move and copy validate the requested target by exact,
case-sensitive equality of the joined "account/mailbox" key: a target that
(even) matches an existing mailbox up to letter case but whose exact key is
absent is rejected with `success:false` and no mutating bridge call; by
contrast, `listEmails`' mailbox-only resolution matches mailbox names
case-insensitively (a directory entry whose lowercased name equals the
lowercased request is included in the fetch set). -/
theorem target_validation_case_sensitive (mbs : List MailboxEntry)
    (bm bc : String → String → String → Except String Bool) (req : MoveEmailRequest)
    (_hcase : ∃ mb, mb ∈ mbs ∧ lowerStr mb.account = lowerStr req.targetAccountName ∧
      lowerStr mb.mailbox = lowerStr req.targetMailboxName)
    (habs : (req.targetAccountName ++ "/" ++ req.targetMailboxName) ∉ mbs.map mailboxKey) :
    ((moveEmails (.ok true) (.ok mbs) bm req).1.success = false ∧
      (moveEmails (.ok true) (.ok mbs) bm req).2 = []) ∧
    ((copyEmails (.ok true) (.ok mbs) bc
        ⟨req.messageId, req.targetMailboxName, req.targetAccountName⟩).1.success = false ∧
      (copyEmails (.ok true) (.ok mbs) bc
        ⟨req.messageId, req.targetMailboxName, req.targetAccountName⟩).2 = []) ∧
    (∀ m mb tf, mb ∈ mbs → lowerStr mb.mailbox = lowerStr m →
      resolveMailboxes mbs none (some m) = .ok tf → mb ∈ tf) := by
  refine ⟨?_, ?_, ?_⟩
  · rw [moveEmails_reject_eq mbs bm req habs]
    exact ⟨rfl, rfl⟩
  · rw [copyEmails_reject_eq mbs bc ⟨req.messageId, req.targetMailboxName,
      req.targetAccountName⟩ habs]
    exact ⟨rfl, rfl⟩
  · intro m mb tf hmem hlow htf
    simp only [resolveMailboxes] at htf
    injection htf with h
    subst h
    apply mem_dedupeBy_id
    exact List.mem_filter.mpr ⟨hmem, by simp [hlow]⟩

def cDirSaved : List MailboxEntry := [⟨"iCloud", "Saved"⟩]

def cMoveReqLower : MoveEmailRequest := ⟨"81506", "saved", "iCloud"⟩

/-- Claim C9, witness: the target iCloud/saved differs from the existing
iCloud/Saved only in case and is rejected by move, while `listEmails`'
resolution accepts the case-variant "SAVED". -/
theorem target_validation_case_sensitive_witness :
    ((moveEmails (.ok true) (.ok cDirSaved) cBridgeAlwaysOk cMoveReqLower).1.success = false ∧
      (moveEmails (.ok true) (.ok cDirSaved) cBridgeAlwaysOk cMoveReqLower).2 = []) ∧
    MailboxEntry.mk "iCloud" "Saved" ∈ [MailboxEntry.mk "iCloud" "Saved"] :=
  ⟨(target_validation_case_sensitive cDirSaved cBridgeAlwaysOk cBridgeAlwaysOk
      cMoveReqLower ⟨⟨"iCloud", "Saved"⟩, by decide, by decide, by decide⟩
      (by decide)).1,
   (target_validation_case_sensitive cDirSaved cBridgeAlwaysOk cBridgeAlwaysOk
      cMoveReqLower ⟨⟨"iCloud", "Saved"⟩, by decide, by decide, by decide⟩
      (by decide)).2.2 "SAVED" ⟨"iCloud", "Saved"⟩ [⟨"iCloud", "Saved"⟩]
      (by decide) (by decide) (by decide)⟩

/-- Claim C8 (amended): the sequence returned by `listMailboxes` contains no
two equal (account, mailbox) entries — its joined "account/mailbox" keys are
pairwise distinct — and every enumerated mailbox is represented: some entry
with its joined key survives. (The original claim's "appears exactly once"
fails when a *different* earlier pair joins to the same key, in which case
the later pair is dropped entirely — see the counterexample.) -/
theorem listMailboxes_unique_pairs (accounts : List MailAccount)
    (localNames : Option (List String)) :
    (listMailboxesCore accounts localNames).Nodup ∧
    ((listMailboxesCore accounts localNames).map mailboxKey).Nodup ∧
    ∀ mb, mb ∈ listMailboxesRaw accounts localNames →
      ∃ mb2, mb2 ∈ listMailboxesCore accounts localNames ∧
        mailboxKey mb2 = mailboxKey mb := by
  refine ⟨(nodup_keys_dedupeBy mailboxKey _).of_map, nodup_keys_dedupeBy _ _, ?_⟩
  intro mb hmb
  exact key_covered_dedupeBy mailboxKey _ mb hmb

def cAccountsSlash : List MailAccount :=
  [⟨"On My Mac/X", ["Y"]⟩, ⟨"On My Mac", ["X/Y"]⟩]

/-- Claim C8, counterexample: the pair ("On My Mac", "X/Y") is reported both
by the per-account enumeration (an account literally named "On My Mac") and
by the local enumeration, but appears zero times — not exactly once — in the
result, because the earlier distinct pair ("On My Mac/X", "Y") joins to the
same key "On My Mac/X/Y" and wins the deduplication. -/
theorem listMailboxes_unique_pairs_cex :
    MailboxEntry.mk "On My Mac" "X/Y" ∈
      (cAccountsSlash.map
        (fun a => a.mailboxNames.map (fun m => MailboxEntry.mk a.name m))).flatten ∧
    MailboxEntry.mk "On My Mac" "X/Y" ∈
      (["X/Y"].map (fun m => MailboxEntry.mk "On My Mac" m)) ∧
    (listMailboxesCore cAccountsSlash (some ["X/Y"])).count
      (MailboxEntry.mk "On My Mac" "X/Y") = 0 := by
  decide

/-- Claim C8, witness: on a directory with one account mailbox and one local
mailbox the result is duplicate-free and represents the enumerated pair. -/
theorem listMailboxes_unique_pairs_witness :
    (listMailboxesCore [⟨"A", ["Inbox"]⟩] (some ["Notes"])).Nodup ∧
    ∃ mb2, mb2 ∈ listMailboxesCore [⟨"A", ["Inbox"]⟩] (some ["Notes"]) ∧
      mailboxKey mb2 = mailboxKey (MailboxEntry.mk "A" "Inbox") :=
  ⟨(listMailboxes_unique_pairs [⟨"A", ["Inbox"]⟩] (some ["Notes"])).1,
   (listMailboxes_unique_pairs [⟨"A", ["Inbox"]⟩] (some ["Notes"])).2.2
     (MailboxEntry.mk "A" "Inbox") (by decide)⟩

/-- Claim C5: when the located message's account lacks a working native
archive primitive (`Mail.archive` fails), `archiveEmails` falls back to
moving the message to Trash and then from Trash to Archive; if the
intermediate Trash lookup fails (raises, or finds nothing), the item reports
`success:false` and the move to Archive is never issued; when the fallback
completes, the full two-step trace is issued and the item succeeds. -/
theorem archiveEmails_two_step_fallback (b : ArchiveBridge) (mid : String)
    (hloc : b.located = true) (hnat : b.nativeArchiveOk = false)
    (hsrc : b.sourceAccountOk = true) :
    (∃ rest, (archiveEmails (.ok true) (.ok b) mid).2 =
      ArchiveOp.nativeArchive mid :: ArchiveOp.moveToTrash mid :: rest) ∧
    (b.trashLookupFound = .ok false ∨ b.trashLookupFound = .error () →
      (archiveEmails (.ok true) (.ok b) mid).1.success = false ∧
      (archiveEmails (.ok true) (.ok b) mid).1.archivedEmail.success = false ∧
      ArchiveOp.moveToArchive mid ∉ (archiveEmails (.ok true) (.ok b) mid).2) ∧
    (b.moveToTrashOk = true → b.trashLookupFound = .ok true →
      b.moveToArchiveOk = true →
      (archiveEmails (.ok true) (.ok b) mid).1.success = true ∧
      (archiveEmails (.ok true) (.ok b) mid).2 =
        [ArchiveOp.nativeArchive mid, ArchiveOp.moveToTrash mid,
          ArchiveOp.trashLookup mid, ArchiveOp.moveToArchive mid]) := by
  refine ⟨?_, ?_, ?_⟩
  · cases hmt : b.moveToTrashOk with
    | false =>
      exact ⟨[], by simp [archiveEmails, archiveRun, hloc, hnat, hsrc, hmt]⟩
    | true =>
      cases hlk : b.trashLookupFound with
      | error u =>
        exact ⟨[ArchiveOp.trashLookup mid],
          by simp [archiveEmails, archiveRun, hloc, hnat, hsrc, hmt, hlk]⟩
      | ok bv =>
        cases bv with
        | false =>
          exact ⟨[ArchiveOp.trashLookup mid],
            by simp [archiveEmails, archiveRun, hloc, hnat, hsrc, hmt, hlk]⟩
        | true =>
          refine ⟨[ArchiveOp.trashLookup mid, ArchiveOp.moveToArchive mid], ?_⟩
          cases hma : b.moveToArchiveOk <;>
            simp [archiveEmails, archiveRun, hloc, hnat, hsrc, hmt, hlk, hma]
  · intro hfail
    cases hmt : b.moveToTrashOk <;> rcases hfail with h | h <;>
      simp [archiveEmails, archiveRun, hloc, hnat, hsrc, hmt, h]
  · intro hmt hlk hma
    simp [archiveEmails, archiveRun, hloc, hnat, hsrc, hmt, hlk, hma]

def cArchiveBridgeFallback : ArchiveBridge := ⟨true, false, true, true, .ok false, true⟩

/-- Claim C5, witness: native archive fails, the Trash lookup finds nothing,
and the item reports failure without a move to Archive. -/
theorem archiveEmails_two_step_fallback_witness :
    (archiveEmails (.ok true) (.ok cArchiveBridgeFallback) "81506").1.success = false ∧
    (archiveEmails (.ok true) (.ok cArchiveBridgeFallback) "81506").1.archivedEmail.success = false ∧
    ArchiveOp.moveToArchive "81506" ∉
      (archiveEmails (.ok true) (.ok cArchiveBridgeFallback) "81506").2 :=
  (archiveEmails_two_step_fallback cArchiveBridgeFallback "81506" rfl rfl rfl).2.1
    (Or.inl rfl)

/-- Claim C7: a `createDraft` tool call with `isReply = true` and no
`originalMessageId` fails the `isCreateDraftArgs` validation, returns an
error response, and issues no draft-creation (hence no bridge) call. -/
theorem createDraft_reply_requires_original (args : DraftArgs)
    (outcome : CreateDraftOutcome) (h1 : args.isReply = true)
    (h2 : args.originalMessageId = none) :
    (createDraftHandler args outcome).1.isError = true ∧
    (createDraftHandler args outcome).2 = [] := by
  simp [createDraftHandler, isCreateDraftArgs, h1, h2]

def cDraftArgsReply : DraftArgs := ⟨true, none, none, "Subject", "Body", none⟩

def cDraftOutcomeOk : CreateDraftOutcome :=
  ⟨true, "Draft created successfully.", some "42"⟩

/-- Claim C7, witness: a reply draft with a missing original id errors out
before any draft creation, even with a bridge that would succeed. -/
theorem createDraft_reply_requires_original_witness :
    (createDraftHandler cDraftArgsReply cDraftOutcomeOk).1.isError = true ∧
    (createDraftHandler cDraftArgsReply cDraftOutcomeOk).2 = [] :=
  createDraft_reply_requires_original cDraftArgsReply cDraftOutcomeOk rfl rfl

/-- Claim C1 (amended): duplicate messageIds in a `readEmails` batch are
coalesced before issuing bridge lookups, and the returned list is positionally
aligned to the *deduplicated* (first-occurrence) request list, not to the
original one: on the success path its i-th element echoes the i-th distinct
messageId, so its length is the number of distinct messageIds. It equals the
original length N only when all N ids are distinct (or on a top-level failure
path, which maps over the original requests) — see the counterexample. -/
theorem readEmails_positional_alignment (lookup : String → Except String MessageLookup)
    (reqs : List ReadEmailRequest) (hl : ∀ mid, ∃ v, lookup mid = Except.ok v) :
    (readEmails (.ok true) lookup reqs).map ReadEmailDetails.messageId =
      (dedupeBy ReadEmailRequest.messageId reqs).map ReadEmailRequest.messageId := by
  rcases promiseAll_readMessage_ok lookup hl (dedupeBy ReadEmailRequest.messageId reqs)
    with ⟨rs, hrs, hmap⟩
  simp only [readEmails, hrs]
  exact hmap

def cReadReqsDup : List ReadEmailRequest := [⟨"A"⟩, ⟨"A"⟩, ⟨"B"⟩]

def cLookupAbsent : String → Except String MessageLookup := fun _ => .ok .absent

/-- Claim C1, counterexample: the batch [A, A, B] of size 3 yields only two
results — the deduplicated result list is not re-expanded to the original
request positions. -/
theorem readEmails_positional_alignment_cex :
    (readEmails (.ok true) cLookupAbsent cReadReqsDup).length = 2 ∧
    cReadReqsDup.length = 3 := by
  decide

/-- Claim C1, witness: for [A, A, B] the result ids are exactly the
deduplicated ids [A, B], in order. -/
theorem readEmails_positional_alignment_witness :
    (readEmails (.ok true) cLookupAbsent cReadReqsDup).map ReadEmailDetails.messageId =
      (dedupeBy ReadEmailRequest.messageId cReadReqsDup).map ReadEmailRequest.messageId :=
  readEmails_positional_alignment cLookupAbsent cReadReqsDup
    (fun _ => ⟨MessageLookup.absent, rfl⟩)

/-- Claim C10: `readEmails` never throws — it is a total function into a
result list. Every element of the result echoes the messageId of some request
and, whenever its success flag is false, carries an error string; and on each
top-level failure path (access-gate error, access returning false, or a
rejection of the parallel read) it returns one failed result per original,
non-deduplicated request, in order. -/
theorem readEmails_itemized_total (access : Except String Bool)
    (lookup : String → Except String MessageLookup) (reqs : List ReadEmailRequest) :
    (∀ r, r ∈ readEmails access lookup reqs →
      r.messageId ∈ reqs.map ReadEmailRequest.messageId ∧
      (r.success = false → r.error.isSome = true)) ∧
    (∀ m, access = .error m →
      (readEmails access lookup reqs).map ReadEmailDetails.messageId =
        reqs.map ReadEmailRequest.messageId) ∧
    (access = .ok false →
      (readEmails access lookup reqs).map ReadEmailDetails.messageId =
        reqs.map ReadEmailRequest.messageId) ∧
    (∀ m, access = .ok true →
      promiseAll (fun r => readMessage lookup r.messageId)
        (dedupeBy ReadEmailRequest.messageId reqs) = .error m →
      (readEmails access lookup reqs).map ReadEmailDetails.messageId =
        reqs.map ReadEmailRequest.messageId) := by
  refine ⟨?_, ?_, ?_, ?_⟩
  · intro r hr
    cases access with
    | error m =>
      simp only [readEmails] at hr
      rcases List.mem_map.mp hr with ⟨req, hreq, hre⟩
      refine ⟨?_, ?_⟩
      · rw [← hre]
        exact List.mem_map_of_mem _ hreq
      · intro _
        rw [← hre]
        rfl
    | ok bv =>
      cases bv with
      | false =>
        simp only [readEmails] at hr
        rcases List.mem_map.mp hr with ⟨req, hreq, hre⟩
        refine ⟨?_, ?_⟩
        · rw [← hre]
          exact List.mem_map_of_mem _ hreq
        · intro _
          rw [← hre]
          rfl
      | true =>
        simp only [readEmails] at hr
        cases hp : promiseAll (fun r => readMessage lookup r.messageId)
            (dedupeBy ReadEmailRequest.messageId reqs) with
        | ok rs =>
          rw [hp] at hr
          rcases promiseAll_mem _ _ rs hp r hr with ⟨x, hx, hfx⟩
          refine ⟨?_, readMessage_error_on_failure lookup x.messageId r hfx⟩
          rw [readMessage_echoes lookup x.messageId r hfx]
          exact List.mem_map_of_mem _ (mem_of_mem_dedupeBy _ _ x hx)
        | error m =>
          rw [hp] at hr
          rcases List.mem_map.mp hr with ⟨req, hreq, hre⟩
          refine ⟨?_, ?_⟩
          · rw [← hre]
            exact List.mem_map_of_mem _ hreq
          · intro _
            rw [← hre]
            rfl
  · intro m hm
    subst hm
    simp only [readEmails, List.map_map]
    rfl
  · intro hm
    subst hm
    simp only [readEmails, List.map_map]
    rfl
  · intro m hm hp
    subst hm
    simp only [readEmails, hp, List.map_map]
    rfl

def cReadReqsAB : List ReadEmailRequest := [⟨"A"⟩, ⟨"B"⟩]

/-- Claim C10, witness: with the bridge unreachable, each original request
gets a failed, error-carrying result and positions are preserved. -/
theorem readEmails_itemized_total_witness :
    ((failedReadDetail "A" "Error reading emails: boom").messageId ∈
        cReadReqsAB.map ReadEmailRequest.messageId ∧
      ((failedReadDetail "A" "Error reading emails: boom").success = false →
        (failedReadDetail "A" "Error reading emails: boom").error.isSome = true)) ∧
    (readEmails (.error "boom") cLookupAbsent cReadReqsAB).map ReadEmailDetails.messageId =
      cReadReqsAB.map ReadEmailRequest.messageId :=
  ⟨(readEmails_itemized_total (.error "boom") cLookupAbsent cReadReqsAB).1
      (failedReadDetail "A" "Error reading emails: boom") (by decide),
   (readEmails_itemized_total (.error "boom") cLookupAbsent cReadReqsAB).2.1 "boom" rfl⟩

/-- Claim C2 (amended): for every `listEmails` call returning a result list:
for an accepted limit L ≥ 1 the list has at most L messages, while L = 0 —
being falsy in JS, like an absent limit — disables truncation; and when no
(non-whitespace) search term is supplied the list is sorted by date-received
descending with undated messages keyed 0 (oldest). With a search term the
order is the fuzzy-match ranking instead of date order — see the
counterexample for both deltas. -/
theorem listEmails_limit_and_sort (access : Except String Bool)
    (dir : Except String (List MailboxEntry)) (fetch : MailboxEntry → List Email)
    (pd : String → Nat) (score : String → Email → Option Nat)
    (p : ListEmailsParams) (res : List Email)
    (hres : listEmails access dir fetch pd score p = .ok res) :
    (∀ n, p.limit = some n → 1 ≤ n → res.length ≤ n) ∧
    (searchActive p.searchTerm = false →
      res.Pairwise (fun a b => dateKey pd b ≤ dateKey pd a)) := by
  cases access with
  | error m => exact Except.noConfusion hres
  | ok bv =>
    cases bv with
    | false =>
      simp only [listEmails] at hres
      injection hres with h
      subst h
      exact ⟨fun n _ _ => by simp, fun _ => List.Pairwise.nil⟩
    | true =>
      cases dir with
      | error m => exact Except.noConfusion hres
      | ok mbs =>
        simp only [listEmails] at hres
        split at hres
        · exact Except.noConfusion hres
        · split at hres
          · exact Except.noConfusion hres
          · split at hres
            · injection hres with h
              subst h
              exact ⟨fun n _ _ => by simp, fun _ => List.Pairwise.nil⟩
            · injection hres with h
              subst h
              refine ⟨?_, ?_⟩
              · intro n hn h1
                exact length_postProcess_le pd score p _ n hn (by omega)
              · intro hs
                exact sorted_postProcess pd score p _ hs

def cEmailNew : Email := ⟨"W", "Inbox", "m1", "x hello", "s1", some "d100", false, false⟩

def cEmailOld : Email := ⟨"W", "Inbox", "m2", "x match", "s2", some "d50", false, false⟩

def cFetchTwo : MailboxEntry → List Email := fun _ => [cEmailNew, cEmailOld]

def cParseDate : String → Nat := fun s => if s = "d100" then 100 else 50

def cScoreInv : String → Email → Option Nat :=
  fun _ e => if e.messageId = "m1" then some 5 else some 1

def cDirW : List MailboxEntry := [⟨"W", "Inbox"⟩]

def cParamsLimit0 : ListEmailsParams := ⟨some "x", some 0, none, none, none, none⟩

/-- Claim C2, counterexample: with the accepted limit L = 0, `listEmails`
returns two messages (0 is falsy, so no truncation happens), and with a
search term present the result is ranked by fuzzy score, not sorted by
date-received descending. -/
theorem listEmails_limit_and_sort_cex :
    listEmails (.ok true) (.ok cDirW) cFetchTwo cParseDate cScoreInv cParamsLimit0 =
      .ok [cEmailOld, cEmailNew] ∧
    ¬ ([cEmailOld, cEmailNew].length ≤ 0) ∧
    ¬ [cEmailOld, cEmailNew].Pairwise
      (fun a b => dateKey cParseDate b ≤ dateKey cParseDate a) := by
  decide

def cParamsLimit1 : ListEmailsParams := ⟨none, some 1, none, none, none, none⟩

/-- Claim C2, witness: with limit 1 and no search term the result is one
message, date-sorted. -/
theorem listEmails_limit_and_sort_witness :
    [cEmailNew].length ≤ 1 ∧
    [cEmailNew].Pairwise (fun a b => dateKey cParseDate b ≤ dateKey cParseDate a) :=
  ⟨(listEmails_limit_and_sort (.ok true) (.ok cDirW) cFetchTwo cParseDate cScoreInv
      cParamsLimit1 [cEmailNew] (by decide)).1 1 rfl (by decide),
   (listEmails_limit_and_sort (.ok true) (.ok cDirW) cFetchTwo cParseDate cScoreInv
      cParamsLimit1 [cEmailNew] (by decide)).2 rfl⟩

/-- Claim C4: a `listEmails` call that supplies a (non-empty) accountName but
no mailboxName either resolves to exactly one mailbox of that account whose
name equals "Inbox" case-insensitively, or — when the account has no such
mailbox — fails with an error naming the account (the account-not-found or
the no-inbox-found message), rather than returning a result. -/
theorem listEmails_account_only_inbox (fetch : MailboxEntry → List Email)
    (pd : String → Nat) (score : String → Email → Option Nat)
    (p : ListEmailsParams) (mbs : List MailboxEntry) (a : String)
    (hp : p.accountName = some a) (ha : a ≠ "") (hm : p.mailboxName = none) :
    ((∀ mb, mb ∈ mbs → ¬ (mb.account = a ∧ lowerStr mb.mailbox = "inbox")) →
      listEmails (.ok true) (.ok mbs) fetch pd score p =
        .error ("Error listing emails: " ++
          accountNotFoundMsg a (dedupeBy id (mbs.map MailboxEntry.account))) ∨
      listEmails (.ok true) (.ok mbs) fetch pd score p =
        .error ("Error listing emails: " ++
          noInboxMsg a
            ((mbs.filter (fun mb => mb.account == a)).map MailboxEntry.mailbox))) ∧
    (∀ tf, resolveMailboxes mbs (some a) none = .ok tf →
      ∃ mb, tf = [mb] ∧ mb.account = a ∧ lowerStr mb.mailbox = "inbox") := by
  constructor
  · intro hno
    have hjsa : jsStringArg p.accountName = some a := by simp [jsStringArg, hp, ha]
    have hjsm : jsStringArg p.mailboxName = none := by simp [jsStringArg, hm]
    by_cases hacc : mbs.any (fun mb => mb.account == a)
    · right
      have hfilter : mbs.filter
          (fun mb => mb.account == a && lowerStr mb.mailbox == "inbox") = [] := by
        rw [List.filter_eq_nil_iff]
        intro mb hmb
        simp only [Bool.and_eq_true, beq_iff_eq]
        exact fun h => hno mb hmb h
      simp [listEmails, hjsa, hjsm, validateNames, hacc, resolveMailboxes, hfilter]
    · left
      simp [listEmails, hjsa, hjsm, validateNames, hacc]
  · intro tf htf
    simp only [resolveMailboxes] at htf
    cases hlast : (mbs.filter
        (fun mb => mb.account == a && lowerStr mb.mailbox == "inbox")).getLast? with
    | none =>
      rw [hlast] at htf
      exact Except.noConfusion htf
    | some mb0 =>
      rw [hlast] at htf
      injection htf with h
      subst h
      have hmem := mem_of_getLast? _ mb0 hlast
      have hpred := (List.mem_filter.mp hmem).2
      simp only [Bool.and_eq_true, beq_iff_eq] at hpred
      exact ⟨MailboxEntry.mk a mb0.mailbox, rfl, rfl, hpred.2⟩

def cDirWork : List MailboxEntry := [⟨"Work", "Stuff"⟩]

def cParamsWork : ListEmailsParams := ⟨none, none, some "Work", none, none, none⟩

/-- Claim C4, witness: account "Work" has no case-insensitive Inbox, so the
call fails with one of the two errors naming "Work". -/
theorem listEmails_account_only_inbox_witness :
    listEmails (.ok true) (.ok cDirWork) cFetchTwo cParseDate cScoreInv cParamsWork =
      .error ("Error listing emails: " ++
        accountNotFoundMsg "Work" (dedupeBy id (cDirWork.map MailboxEntry.account))) ∨
    listEmails (.ok true) (.ok cDirWork) cFetchTwo cParseDate cScoreInv cParamsWork =
      .error ("Error listing emails: " ++
        noInboxMsg "Work"
          ((cDirWork.filter (fun mb => mb.account == "Work")).map MailboxEntry.mailbox)) :=
  (listEmails_account_only_inbox cFetchTwo cParseDate cScoreInv cParamsWork cDirWork
    "Work" rfl (by decide) rfl).1 (by decide)

/-- Claim C6: in every `listEmails` result each messageId occurs at most
once, and each returned message is exactly the first occurrence, in the
flattened per-mailbox fetch results, of its messageId — so a message
reachable from two resolved mailboxes is returned once, first occurrence
winning. -/
theorem listEmails_dedup_by_messageId (fetch : MailboxEntry → List Email)
    (pd : String → Nat) (score : String → Email → Option Nat)
    (p : ListEmailsParams) (mbs toFetch : List MailboxEntry) (res : List Email)
    (hr : resolveMailboxes mbs (jsStringArg p.accountName)
      (jsStringArg p.mailboxName) = .ok toFetch)
    (hres : listEmails (.ok true) (.ok mbs) fetch pd score p = .ok res) :
    (res.map Email.messageId).Nodup ∧
    ∀ e, e ∈ res →
      ((toFetch.map fetch).flatten).find?
        (fun x => decide (x.messageId = e.messageId)) = some e := by
  simp only [listEmails] at hres
  split at hres
  · exact Except.noConfusion hres
  · rw [hr] at hres
    simp only [] at hres
    split at hres
    · injection hres with h
      subst h
      exact ⟨by simp, fun e he => absurd he (by simp)⟩
    · injection hres with h
      subst h
      refine ⟨nodupIds_postProcess pd score p _, ?_⟩
      intro e he
      exact find?_of_mem_dedupeBy Email.messageId _ e
        (mem_postProcess pd score p _ e he)

def cEmailDupA : Email := ⟨"W", "Inbox", "m1", "first", "s", some "d100", false, false⟩

def cEmailDupB : Email := ⟨"W", "Inbox", "m1", "second", "s", some "d50", false, false⟩

def cEmailOther : Email := ⟨"W", "Inbox", "m3", "other", "s", some "d50", false, false⟩

def cFetchDup : MailboxEntry → List Email :=
  fun _ => [cEmailDupA, cEmailDupB, cEmailOther]

def cParamsPlain : ListEmailsParams := ⟨none, none, none, none, none, none⟩

/-- Claim C6, witness: with two fetched messages sharing id m1, the result
keeps ids unique and returns the first occurrence of m1. -/
theorem listEmails_dedup_by_messageId_witness :
    ([cEmailDupA, cEmailOther].map Email.messageId).Nodup ∧
    (([(MailboxEntry.mk "W" "Inbox")].map cFetchDup).flatten).find?
      (fun x => decide (x.messageId = cEmailDupA.messageId)) = some cEmailDupA :=
  ⟨(listEmails_dedup_by_messageId cFetchDup cParseDate cScoreInv cParamsPlain cDirW
      [⟨"W", "Inbox"⟩] [cEmailDupA, cEmailOther] (by decide) (by decide)).1,
   (listEmails_dedup_by_messageId cFetchDup cParseDate cScoreInv cParamsPlain cDirW
      [⟨"W", "Inbox"⟩] [cEmailDupA, cEmailOther] (by decide) (by decide)).2
      cEmailDupA (by decide)⟩

end AppleMcp
